import Mathlib

/-!
Verification of the IBOV scraper (`src/ibov_scraper.py`).

The scraper drives a browser session over a paginated table.  We shallowly
embed its pure decision logic: the DOM that the Selenium driver would expose
is abstracted as explicit data (lists of rows and cells, selector oracles),
and each Python method becomes a Lean function translated line by line from
the source.  Exceptions of the Python code are modelled with `Except`
results where the method's own control flow depends on them.
-/

namespace Ibov

/-! ### String helpers

Python string operations used by the scraper: substring containment
(`needle in hay`), ASCII lowercasing, and lexicographic comparison by code
point (the order pandas uses when sorting a string column). -/

/-- Containment of `needle` in `hay`, as Python's `in` on strings
(the empty needle is contained in everything). -/
def charsContains (needle : List Char) : List Char → Bool
  | [] => needle.isEmpty
  | c :: t => needle.isPrefixOf (c :: t) || charsContains needle t

/-- `needle in hay` on strings. -/
def strContains (hay needle : String) : Bool :=
  charsContains needle.data hay.data

/-- Drop leading whitespace characters. -/
def dropLeadingWs : List Char → List Char
  | [] => []
  | c :: t => if c.isWhitespace then dropLeadingWs t else c :: t

/-- Python's `str.strip()`: drop leading and trailing whitespace. -/
def pyStrip (s : String) : String :=
  ⟨(dropLeadingWs ((dropLeadingWs s.data).reverse)).reverse⟩

/-- Python's `str.lower()` restricted to ASCII letters, which covers every
character the scraper compares after lowering. -/
def pyLower (s : String) : String :=
  ⟨s.data.map Char.toLower⟩

/-- Lexicographic `≤` on character lists by code point: Python's string
comparison, which pandas `sort_values` applies to the `codigo` column. -/
def charsLexLe : List Char → List Char → Bool
  | [], _ => true
  | _ :: _, [] => false
  | a :: as, b :: bs =>
      if a.toNat = b.toNat then charsLexLe as bs else decide (a.toNat < b.toNat)

/-- Lexicographic `≤` on strings by code point. -/
def strLexLe (a b : String) : Bool :=
  charsLexLe a.data b.data

theorem charsLexLe_refl (l : List Char) : charsLexLe l l = true := by
  induction l with
  | nil => rfl
  | cons a as ih => simp [charsLexLe, ih]

theorem charsLexLe_total (a b : List Char) :
    charsLexLe a b = true ∨ charsLexLe b a = true := by
  induction a generalizing b with
  | nil => exact Or.inl rfl
  | cons x xs ih =>
    cases b with
    | nil => exact Or.inr rfl
    | cons y ys =>
      by_cases hxy : x.toNat = y.toNat
      · rcases ih ys with h | h
        · exact Or.inl (by simp [charsLexLe, hxy, h])
        · exact Or.inr (by simp [charsLexLe, hxy.symm, h])
      · rcases Nat.lt_or_ge x.toNat y.toNat with h | h
        · exact Or.inl (by simp [charsLexLe, hxy, h])
        · have hlt : y.toNat < x.toNat := lt_of_le_of_ne h (fun e => hxy (Eq.symm e))
          exact Or.inr (by simp [charsLexLe, Nat.ne_of_lt hlt, hlt])

theorem charsLexLe_trans (a b c : List Char) (hab : charsLexLe a b = true)
    (hbc : charsLexLe b c = true) : charsLexLe a c = true := by
  induction a generalizing b c with
  | nil => rfl
  | cons x xs ih =>
    cases b with
    | nil => simp [charsLexLe] at hab
    | cons y ys =>
      cases c with
      | nil => simp [charsLexLe] at hbc
      | cons z zs =>
        by_cases hxy : x.toNat = y.toNat
        · by_cases hyz : y.toNat = z.toNat
          · have hxz : x.toNat = z.toNat := hxy.trans hyz
            simp only [charsLexLe, hxy, if_pos] at hab
            simp only [charsLexLe, hyz, if_pos] at hbc
            simpa [charsLexLe, hxz] using ih ys zs hab hbc
          · simp only [charsLexLe, hyz, if_neg, if_pos] at hbc
            have hlt : y.toNat < z.toNat := by simpa using hbc
            have hxz : x.toNat < z.toNat := hxy ▸ hlt
            simp [charsLexLe, Nat.ne_of_lt hxz, hxz]
        · simp only [charsLexLe, hxy, if_neg] at hab
          have hltxy : x.toNat < y.toNat := by simpa using hab
          by_cases hyz : y.toNat = z.toNat
          · have hxz : x.toNat < z.toNat := hyz ▸ hltxy
            simp [charsLexLe, Nat.ne_of_lt hxz, hxz]
          · simp only [charsLexLe, hyz, if_neg] at hbc
            have hltyz : y.toNat < z.toNat := by simpa using hbc
            have hxz : x.toNat < z.toNat := Nat.lt_trans hltxy hltyz
            simp [charsLexLe, Nat.ne_of_lt hxz, hxz]

/-! ### Data model

`Record` is one emitted dictionary of `_extract_table_data`; `Row` is one
`<tr>` of the located table, carrying the stripped-to-be `textContent` of
its `<td>` and `<th>` cells. -/

/-- One scraped row, as the dictionary appended by `_extract_table_data`. -/
structure Record where
  codigo : String
  empresa : String
  tipo : String
  quantidadeTeorica : String
  participacaoPct : String
  pagina : Nat
  dataColeta : String
  urlFonte : String
deriving Repr, DecidableEq

/-- One `<tr>` element: the `textContent` of its `td` cells and of its
`th` cells, in document order. -/
structure Row where
  tds : List String
  ths : List String
deriving Repr, DecidableEq

/-! ### Row Extractor (`_extract_table_data`, lines 101-188)

The method walks the located table's `tr` elements with a `header_found`
flag.  Per row: `cells = row.find_elements(td)`; if that list is empty,
`cells = row.find_elements(th)`, and if it is non-empty and the flag is not
yet set, the flag is set and the row skipped (`continue`).  Otherwise the
row falls through to the data path: with `len(cells) >= 5`, the cell texts
are stripped and positionally mapped, and a dictionary is appended when
`codigo and empresa and codigo != "Código" and codigo != ""`. -/

/-- The data path of `_extract_table_data` on the cell list a row fell
through with (lines 155-177): `none` when the row is skipped. -/
def mkRecordOfRow (cells : List String) (pageNumber : Nat)
    (dataColeta urlFonte : String) : Option Record :=
  if 5 ≤ cells.length then
    let cellTexts := cells.map pyStrip
    let codigo := cellTexts.getD 0 ""
    let empresa := cellTexts.getD 1 ""
    let tipo := cellTexts.getD 2 ""
    let quantidade := cellTexts.getD 3 ""
    let participacao := cellTexts.getD 4 ""
    if codigo ≠ "" ∧ empresa ≠ "" ∧ codigo ≠ "Código" ∧ codigo ≠ "" then
      some ⟨codigo, empresa, tipo, quantidade, participacao,
            pageNumber, dataColeta, urlFonte⟩
    else
      none
  else
    none

/-- The row loop of `_extract_table_data` (lines 140-181), carrying the
`header_found` flag. -/
def extractRows (pageNumber : Nat) (dataColeta urlFonte : String) :
    List Row → Bool → List Record
  | [], _ => []
  | row :: rest, headerFound =>
    if row.tds.isEmpty then
      if !row.ths.isEmpty && !headerFound then
        extractRows pageNumber dataColeta urlFonte rest true
      else
        match mkRecordOfRow row.ths pageNumber dataColeta urlFonte with
        | some r => r :: extractRows pageNumber dataColeta urlFonte rest headerFound
        | none => extractRows pageNumber dataColeta urlFonte rest headerFound
    else
      match mkRecordOfRow row.tds pageNumber dataColeta urlFonte with
      | some r => r :: extractRows pageNumber dataColeta urlFonte rest headerFound
      | none => extractRows pageNumber dataColeta urlFonte rest headerFound

/-- `_extract_table_data` on the rows of the located table: the loop is
entered with `header_found = False`. -/
def extractTableData (rows : List Row) (pageNumber : Nat)
    (dataColeta urlFonte : String) : List Record :=
  extractRows pageNumber dataColeta urlFonte rows false

theorem mkRecordOfRow_eq_some {cells : List String} {p : Nat} {d u : String}
    {r : Record} (h : mkRecordOfRow cells p d u = some r) :
    r.codigo ≠ "" ∧ r.empresa ≠ "" ∧ r.codigo ≠ "Código" ∧ r.pagina = p := by
  unfold mkRecordOfRow at h
  dsimp only at h
  split at h
  · split at h
    · rename_i hguard
      cases h
      exact ⟨hguard.1, hguard.2.1, hguard.2.2.1, rfl⟩
    · exact absurd h (by simp)
  · exact absurd h (by simp)

theorem mkRecordOfRow_short {cells : List String} {p : Nat} {d u : String}
    (h : cells.length < 5) : mkRecordOfRow cells p d u = none := by
  unfold mkRecordOfRow
  rw [if_neg (by omega)]

theorem mkRecordOfRow_guard_fails {cells : List String} {p : Nat} {d u : String}
    (h : (cells.map pyStrip).getD 0 "" = "" ∨ (cells.map pyStrip).getD 1 "" = "" ∨
         (cells.map pyStrip).getD 0 "" = "Código") :
    mkRecordOfRow cells p d u = none := by
  unfold mkRecordOfRow
  split
  · rw [if_neg]
    intro hc
    rcases h with h | h | h
    · exact hc.1 h
    · exact hc.2.1 h
    · exact hc.2.2.1 h
  · rfl

theorem extractRows_mem_fields (p : Nat) (d u : String) :
    ∀ (rows : List Row) (hf : Bool) (r : Record),
      r ∈ extractRows p d u rows hf →
      r.codigo ≠ "" ∧ r.empresa ≠ "" ∧ r.codigo ≠ "Código" ∧ r.pagina = p := by
  intro rows
  induction rows with
  | nil =>
    intro hf r h
    simp [extractRows] at h
  | cons row rest ih =>
    intro hf r h
    simp only [extractRows] at h
    split at h
    · split at h
      · exact ih _ _ h
      · cases hmk : mkRecordOfRow row.ths p d u with
        | some r' =>
          rw [hmk] at h
          rcases List.mem_cons.mp h with hr | hr
          · exact hr ▸ mkRecordOfRow_eq_some hmk
          · exact ih _ _ hr
        | none =>
          rw [hmk] at h
          exact ih _ _ h
    · cases hmk : mkRecordOfRow row.tds p d u with
      | some r' =>
        rw [hmk] at h
        rcases List.mem_cons.mp h with hr | hr
        · exact hr ▸ mkRecordOfRow_eq_some hmk
        · exact ih _ _ hr
      | none =>
        rw [hmk] at h
        exact ih _ _ h

theorem extractRows_short_row (p : Nat) (d u : String) (row : Row)
    (rest : List Row) (hf : Bool) (htd : row.tds.length < 5)
    (hth : row.ths.length < 5) :
    ∃ hf', extractRows p d u (row :: rest) hf = extractRows p d u rest hf' := by
  simp only [extractRows]
  split
  · split
    · exact ⟨true, rfl⟩
    · exact ⟨hf, by rw [mkRecordOfRow_short hth]⟩
  · exact ⟨hf, by rw [mkRecordOfRow_short htd]⟩

/-- C5: every Record emitted by the Row Extractor has a non-empty `codigo`,
a non-empty `empresa`, a `codigo` different from the header label `"Código"`,
and `pagina` equal to the page number the extractor was invoked with; and a
row exposing fewer than 5 cells (both of its cell lists are shorter than 5)
emits no Record — it only possibly updates the header-seen flag. -/
theorem extract_record_fields_valid (rows : List Row) (p : Nat) (d u : String) :
    (∀ r ∈ extractTableData rows p d u,
        r.codigo ≠ "" ∧ r.empresa ≠ "" ∧ r.codigo ≠ "Código" ∧ r.pagina = p) ∧
    (∀ (row : Row) (rest : List Row) (hf : Bool),
        row.tds.length < 5 → row.ths.length < 5 →
        ∃ hf', extractRows p d u (row :: rest) hf = extractRows p d u rest hf') := by
  refine ⟨fun r hr => extractRows_mem_fields p d u rows false r hr, ?_⟩
  intro row rest hf htd hth
  exact extractRows_short_row p d u row rest hf htd hth

/-- C5 witness: on a concrete page with one well-formed data row and one
short row, the emitted Record satisfies all the field conditions. -/
theorem extract_record_fields_valid_witness :
    (⟨"ABEV3", "AMBEV", "ON", "1", "2", 7, "d", "u"⟩ : Record) ∈
        extractTableData [⟨["ABEV3", "AMBEV", "ON", "1", "2"], []⟩] 7 "d" "u" ∧
    ((⟨"ABEV3", "AMBEV", "ON", "1", "2", 7, "d", "u"⟩ : Record).codigo ≠ "" ∧
     (⟨"ABEV3", "AMBEV", "ON", "1", "2", 7, "d", "u"⟩ : Record).empresa ≠ "" ∧
     (⟨"ABEV3", "AMBEV", "ON", "1", "2", 7, "d", "u"⟩ : Record).codigo ≠ "Código" ∧
     (⟨"ABEV3", "AMBEV", "ON", "1", "2", 7, "d", "u"⟩ : Record).pagina = 7) :=
  ⟨by decide,
   (extract_record_fields_valid [⟨["ABEV3", "AMBEV", "ON", "1", "2"], []⟩] 7 "d" "u").1
     ⟨"ABEV3", "AMBEV", "ON", "1", "2", 7, "d", "u"⟩ (by decide)⟩

/-- C4 counterexample: two consecutive header-shaped rows (no `td` cells,
five `th` cells) do NOT both get skipped: the first flips the header-seen
flag, but the second falls through to the data path with its `th` cells and
is emitted as a Record, because its first cell text is neither empty nor the
literal `"Código"`. -/
theorem header_rows_not_all_skipped :
    (⟨[], ["Code", "Company", "Type", "Qty", "Part"]⟩ : Row).tds = [] ∧
    (⟨[], ["Code", "Company", "Type", "Qty", "Part"]⟩ : Row).ths ≠ [] ∧
    extractTableData
        [⟨[], ["Code", "Company", "Type", "Qty", "Part"]⟩,
         ⟨[], ["Code", "Company", "Type", "Qty", "Part"]⟩] 1 "t" "u" =
      [⟨"Code", "Company", "Type", "Qty", "Part", 1, "t", "u"⟩] := by
  decide

/-- C4 amended: feeding N consecutive header-shaped rows emits zero Records
provided every row after the first also fails the data-row guard — it has
fewer than 5 header cells, or a blank first or second stripped cell text, or
a first cell text equal to `"Código"`.  The first header-shaped row is
always skipped (it flips the header-seen flag); later header-shaped rows are
only skipped by the guard. -/
theorem header_rows_skipped_amended (first : Row) (rest : List Row) (p : Nat)
    (d u : String) (h1 : first.tds = []) (h2 : first.ths ≠ [])
    (hrest : ∀ row ∈ rest, row.tds = [] ∧ row.ths ≠ [] ∧
        (row.ths.length < 5 ∨ (row.ths.map pyStrip).getD 0 "" = "" ∨
         (row.ths.map pyStrip).getD 1 "" = "" ∨
         (row.ths.map pyStrip).getD 0 "" = "Código")) :
    extractTableData (first :: rest) p d u = [] := by
  have hstep : extractTableData (first :: rest) p d u = extractRows p d u rest true := by
    simp [extractTableData, extractRows, h1, List.isEmpty_iff, h2]
  rw [hstep]
  clear hstep h1 h2
  induction rest with
  | nil => rfl
  | cons row rest' ih =>
    obtain ⟨htd, hth, hguard⟩ := hrest row (List.mem_cons_self row rest')
    have hnone : mkRecordOfRow row.ths p d u = none := by
      rcases hguard with h | h | h | h
      · exact mkRecordOfRow_short h
      · exact mkRecordOfRow_guard_fails (Or.inl h)
      · exact mkRecordOfRow_guard_fails (Or.inr (Or.inl h))
      · exact mkRecordOfRow_guard_fails (Or.inr (Or.inr h))
    have : extractRows p d u (row :: rest') true = extractRows p d u rest' true := by
      simp [extractRows, htd, hnone]
    rw [this]
    exact ih (fun r hr => hrest r (List.mem_cons_of_mem row hr))

/-- C4 amended, witness: two consecutive Portuguese header rows (first cell
`"Código"`) are both skipped and emit zero Records. -/
theorem header_rows_skipped_amended_witness :
    (⟨[], ["Código", "Ação", "Tipo", "Qtde. Teórica", "Part. (%)"]⟩ : Row).tds = [] ∧
    extractTableData
        [⟨[], ["Código", "Ação", "Tipo", "Qtde. Teórica", "Part. (%)"]⟩,
         ⟨[], ["Código", "Ação", "Tipo", "Qtde. Teórica", "Part. (%)"]⟩] 1 "t" "u" = [] :=
  ⟨rfl,
   header_rows_skipped_amended
     ⟨[], ["Código", "Ação", "Tipo", "Qtde. Teórica", "Part. (%)"]⟩
     [⟨[], ["Código", "Ação", "Tipo", "Qtde. Teórica", "Part. (%)"]⟩]
     1 "t" "u" rfl (by decide) (by decide)⟩

/-! ### Render Waiter (`_wait_for_table_load`, lines 78-99)

The page state the method inspects: whether a `<table>` element appears
within the timeout, and the row counts of the primary (`table tbody tr`)
and alternate (`table tr`) selectors after the settle delay. -/

structure WaitPage where
  tableAppears : Bool
  tbodyRowCount : Nat
  tableRowCount : Nat
deriving Repr, DecidableEq

/-- `_wait_for_table_load`: on timeout the `TimeoutException` handler
returns `False`; otherwise the primary row selector is tried, falling back
to the alternate one when it yields zero rows, and the method returns
whether any row was found. -/
def waitForTableLoad (pg : WaitPage) : Bool :=
  if pg.tableAppears then
    let rows := pg.tbodyRowCount
    let rows := if rows = 0 then pg.tableRowCount else rows
    decide (0 < rows)
  else
    false

/-! ### Terminal check (`_check_if_last_page`, lines 296-338) -/

/-- The disabled-"next" selectors of lines 305-312. -/
def disabledNextSelectors : List String :=
  ["a[aria-label='Next'][aria-disabled='true']",
   "button[aria-label='Next'][disabled]",
   "a[title='Next'].disabled",
   "button[title='Next']:disabled",
   ".pagination .next.disabled",
   ".dataTables_paginate .next.disabled"]

/-- The bilingual end-of-list text markers of lines 322-327. -/
def lastPageIndicators : List String :=
  ["última página", "last page", "fim da lista", "end of list"]

/-- The page state `_check_if_last_page` inspects: how many elements each
CSS selector matches, and the page source. -/
structure TermPage where
  cssMatches : String → Nat
  pageSource : String

/-- `_check_if_last_page`: true when some disabled-"next" selector matches
an element, or some end-of-list marker occurs in the lowercased page
source. -/
def checkIfLastPage (pg : TermPage) : Bool :=
  disabledNextSelectors.any (fun sel => pg.cssMatches sel != 0) ||
    lastPageIndicators.any (fun ind => strContains (pyLower pg.pageSource) ind)

/-! ### Session Orchestrator (`scrape_all_pages`, lines 405-485)

The loop's collaborators are abstracted as oracles indexed by
`current_page`: since `current_page` strictly increases, the state of the
browser when page `p` is processed is a function of `p`. -/

structure ScrapeEnv where
  waitOk : Nat → Bool
  pageData : Nat → List Record
  isLast : Nat → Bool
  nextOk : Nat → Bool

/-- Why `scrape_all_pages` left its `while` loop. -/
inductive StopReason where
  | waiterFail
  | terminal
  | advanceFail
  | ceiling
deriving Repr, DecidableEq

/-- Result of the traversal loop, instrumented with the pages on which the
Row Extractor ran (`visited`) and the pages on which
`_find_next_page_button` was invoked (`advancedFrom`). -/
structure ScrapeResult where
  records : List Record
  finalPage : Nat
  visited : List Nat
  advancedFrom : List Nat
  reason : StopReason
deriving Repr, DecidableEq

/-- The `while current_page <= max_pages` loop of lines 437-478: wait for
the table (`break` on failure), extract and extend `all_data`, check the
last-page heuristic (`break` when it fires), then — only below the ceiling
— try to advance (`break` on failure), incrementing `current_page`. -/
def scrapeLoop (env : ScrapeEnv) (maxPages currentPage : Nat)
    (acc : List Record) (vis adv : List Nat) : ScrapeResult :=
  if currentPage ≤ maxPages then
    if env.waitOk currentPage then
      let pageData := env.pageData currentPage
      let acc' := if pageData.isEmpty then acc else acc ++ pageData
      let vis' := vis ++ [currentPage]
      if env.isLast currentPage then
        ⟨acc', currentPage, vis', adv, .terminal⟩
      else if _h : currentPage < maxPages then
        if env.nextOk currentPage then
          scrapeLoop env maxPages (currentPage + 1) acc' vis' (adv ++ [currentPage])
        else
          ⟨acc', currentPage, vis', adv ++ [currentPage], .advanceFail⟩
      else
        ⟨acc', currentPage, vis', adv, .ceiling⟩
    else
      ⟨acc, currentPage, vis, adv, .waiterFail⟩
  else
    ⟨acc, currentPage, vis, adv, .ceiling⟩
termination_by maxPages + 1 - currentPage
decreasing_by omega

/-- `scrape_all_pages`: the loop starts at `current_page = 1` with
`all_data = []`. -/
def scrapeAllPages (env : ScrapeEnv) (maxPages : Nat) : ScrapeResult :=
  scrapeLoop env maxPages 1 [] [] []

theorem extendIfNonempty (acc pd : List Record) :
    (if pd.isEmpty then acc else acc ++ pd) = acc ++ pd := by
  cases pd <;> simp

/-- Stepping lemma: from a page `cur`, `k` consecutive fully successful
pages (waiter ready, terminal check silent, advance successful) move the
loop to page `cur + k`, appending those pages' data, visits and advance
invocations. -/
theorem scrapeLoop_advance (env : ScrapeEnv) (N : Nat) :
    ∀ (k cur : Nat) (acc : List Record) (vis adv : List Nat),
      cur + k ≤ N →
      (∀ q, cur ≤ q → q < cur + k →
        env.waitOk q = true ∧ env.isLast q = false ∧ env.nextOk q = true) →
      scrapeLoop env N cur acc vis adv =
        scrapeLoop env N (cur + k)
          (acc ++ ((List.range' cur k).map env.pageData).flatten)
          (vis ++ List.range' cur k) (adv ++ List.range' cur k) := by
  intro k
  induction k with
  | zero =>
    intro cur acc vis adv _ _
    simp [List.range']
  | succ k ih =>
    intro cur acc vis adv hle hok
    obtain ⟨hw, hl, hn⟩ := hok cur (Nat.le_refl cur) (by omega)
    rw [scrapeLoop]
    rw [if_pos (by omega : cur ≤ N), hw, if_pos rfl, hl]
    simp only [Bool.false_eq_true, if_false]
    rw [dif_pos (by omega : cur < N), hn, if_pos rfl, extendIfNonempty]
    rw [ih (cur + 1) (acc ++ env.pageData cur) (vis ++ [cur]) (adv ++ [cur])
      (by omega) (fun q hq1 hq2 => hok q (by omega) (by omega))]
    have hrange : List.range' cur (k + 1) = cur :: List.range' (cur + 1) k :=
      List.range'_succ cur k 1
    rw [hrange]
    have harith : cur + 1 + k = cur + (k + 1) := by omega
    rw [harith]
    simp [List.append_assoc]

/-- Master invariant of the traversal loop: the result extends the
accumulators with data/visits/advances of some block `delta` of pages; the
extractor's output of every visited page is in the records; a page whose
terminal check fired is the last visited one, with reason `terminal`, and
pagination was only invoked on pages whose terminal check was silent. -/
theorem scrapeLoop_invariant (env : ScrapeEnv) (N : Nat) :
    ∀ (k cur : Nat) (acc : List Record) (vis adv : List Nat),
      N + 1 - cur ≤ k →
      ∃ delta dadv,
        (scrapeLoop env N cur acc vis adv).visited = vis ++ delta ∧
        (scrapeLoop env N cur acc vis adv).advancedFrom = adv ++ dadv ∧
        (scrapeLoop env N cur acc vis adv).records =
          acc ++ (delta.map env.pageData).flatten ∧
        (∀ q ∈ dadv, env.isLast q = false) ∧
        ((scrapeLoop env N cur acc vis adv).reason = .terminal →
          ∃ δ p, delta = δ ++ [p] ∧ env.isLast p = true ∧
            env.pageData p <:+ (scrapeLoop env N cur acc vis adv).records) ∧
        (∀ q ∈ delta, env.isLast q = true →
          (scrapeLoop env N cur acc vis adv).reason = .terminal ∧
            ∃ δ, delta = δ ++ [q]) := by
  intro k
  induction k with
  | zero =>
    intro cur acc vis adv hk
    rw [scrapeLoop, if_neg (by omega : ¬cur ≤ N)]
    exact ⟨[], [], by simp, by simp, by simp, by simp, by simp, by simp⟩
  | succ k ih =>
    intro cur acc vis adv hk
    rw [scrapeLoop]
    by_cases hle : cur ≤ N
    · rw [if_pos hle]
      by_cases hw : env.waitOk cur = true
      · rw [if_pos hw]
        dsimp only
        rw [extendIfNonempty]
        by_cases hl : env.isLast cur = true
        · rw [if_pos hl]
          refine ⟨[cur], [], by simp, by simp, by simp, by simp, ?_, ?_⟩
          · intro _
            exact ⟨[], cur, by simp, hl, by simp⟩
          · intro q hq _
            simp only [List.mem_singleton] at hq
            exact ⟨rfl, [], by simp [hq]⟩
        · rw [if_neg hl]
          have hlf : env.isLast cur = false := by simpa using hl
          by_cases hcur : cur < N
          · rw [dif_pos hcur]
            by_cases hn : env.nextOk cur = true
            · rw [if_pos hn]
              obtain ⟨delta, dadv, h1, h2, h3, h4, h5, h6⟩ :=
                ih (cur + 1) (acc ++ env.pageData cur) (vis ++ [cur])
                  (adv ++ [cur]) (by omega)
              refine ⟨cur :: delta, cur :: dadv, ?_, ?_, ?_, ?_, ?_, ?_⟩
              · rw [h1]; simp
              · rw [h2]; simp
              · rw [h3]; simp
              · intro q hq
                rcases List.mem_cons.mp hq with hq | hq
                · exact hq ▸ hlf
                · exact h4 q hq
              · intro hr
                obtain ⟨δ, p, hδ, hp, hsuf⟩ := h5 hr
                exact ⟨cur :: δ, p, by rw [hδ, List.cons_append], hp, hsuf⟩
              · intro q hq hq2
                rcases List.mem_cons.mp hq with hq | hq
                · exact absurd (hq ▸ hq2) hl
                · obtain ⟨hr, δ, hδ⟩ := h6 q hq hq2
                  exact ⟨hr, cur :: δ, by rw [hδ, List.cons_append]⟩
            · rw [if_neg hn]
              refine ⟨[cur], [cur], by simp, by simp, by simp, ?_, by simp, ?_⟩
              · intro q hq
                simp only [List.mem_singleton] at hq
                exact hq ▸ hlf
              · intro q hq hq2
                simp only [List.mem_singleton] at hq
                exact absurd (hq ▸ hq2) hl
          · rw [dif_neg hcur]
            refine ⟨[cur], [], by simp, by simp, by simp, by simp, by simp, ?_⟩
            intro q hq hq2
            simp only [List.mem_singleton] at hq
            exact absurd (hq ▸ hq2) hl
      · rw [if_neg hw]
        exact ⟨[], [], by simp, by simp, by simp, by simp, by simp, by simp⟩
    · rw [if_neg hle]
      exact ⟨[], [], by simp, by simp, by simp, by simp, by simp, by simp⟩

/-- C1: with a ceiling `max_pages = N ≥ 1`, a Render Waiter that always
reports ready, a terminal check that never fires and a Pagination
Controller that always reports a successful advance, the traversal loop
terminates after visiting exactly the pages `1..N` — no page beyond `N` is
extracted, the final `current_page` is `N`, and the loop exits through the
ceiling branch. -/
theorem ceiling_enforced (env : ScrapeEnv) (N : Nat) (hN : 1 ≤ N)
    (hw : ∀ p, env.waitOk p = true) (hl : ∀ p, env.isLast p = false)
    (hn : ∀ p, env.nextOk p = true) :
    (scrapeAllPages env N).visited = List.range' 1 N ∧
    (scrapeAllPages env N).finalPage = N ∧
    (scrapeAllPages env N).reason = .ceiling := by
  unfold scrapeAllPages
  rw [scrapeLoop_advance env N (N - 1) 1 [] [] [] (by omega)
    (fun q h1 h2 => ⟨hw q, hl q, hn q⟩)]
  have h1N : 1 + (N - 1) = N := by omega
  rw [h1N]
  rw [scrapeLoop, if_pos (Nat.le_refl N), if_pos (hw N)]
  dsimp only
  rw [extendIfNonempty, if_neg (by simp [hl N]), dif_neg (lt_irrefl N)]
  refine ⟨?_, rfl, rfl⟩
  have hconcat : List.range' 1 (N - 1) ++ [N] = List.range' 1 N := by
    have h : List.range' 1 ((N - 1) + 1) = List.range' 1 (N - 1) ++ [1 + 1 * (N - 1)] :=
      List.range'_concat 1 (N - 1)
    rw [show (N - 1) + 1 = N by omega] at h
    rw [show 1 + 1 * (N - 1) = N by omega] at h
    exact h.symm
  simp [hconcat]

/-- C1 witness: ceiling 3, waiter always ready, terminal check silent,
pagination always succeeding — exactly pages 1, 2, 3 are visited. -/
theorem ceiling_enforced_witness :
    1 ≤ 3 ∧
    ((scrapeAllPages ⟨fun _ => true, fun _ => [], fun _ => false, fun _ => true⟩ 3).visited =
        List.range' 1 3 ∧
     (scrapeAllPages ⟨fun _ => true, fun _ => [], fun _ => false, fun _ => true⟩ 3).finalPage = 3 ∧
     (scrapeAllPages ⟨fun _ => true, fun _ => [], fun _ => false, fun _ => true⟩ 3).reason =
        .ceiling) :=
  ⟨by decide,
   ceiling_enforced ⟨fun _ => true, fun _ => [], fun _ => false, fun _ => true⟩ 3
     (by decide) (fun _ => rfl) (fun _ => rfl) (fun _ => rfl)⟩

/-- C2: on every run, the returned records are exactly the concatenation of
the Row Extractor's output over the visited pages — the extractor runs and
its result is appended before the terminal check is evaluated — and when
the run ends via terminal detection, the final visited page's own data is a
suffix of the returned records (never dropped). -/
theorem extraction_before_terminal (env : ScrapeEnv) (N : Nat) :
    (scrapeAllPages env N).records =
      ((scrapeAllPages env N).visited.map env.pageData).flatten ∧
    ((scrapeAllPages env N).reason = .terminal →
      ∃ p, (scrapeAllPages env N).visited.getLast? = some p ∧
        env.isLast p = true ∧
        env.pageData p <:+ (scrapeAllPages env N).records) := by
  obtain ⟨delta, dadv, h1, h2, h3, h4, h5, h6⟩ :=
    scrapeLoop_invariant env N (N + 1) 1 [] [] [] (by omega)
  unfold scrapeAllPages
  constructor
  · rw [h3, h1]
    simp
  · intro hr
    obtain ⟨δ, p, hδ, hp, hsuf⟩ := h5 hr
    refine ⟨p, ?_, hp, hsuf⟩
    rw [h1, hδ]
    simp

/-- C2 witness: a terminal check firing on page 1 still returns page 1's
extracted record. -/
theorem extraction_before_terminal_witness :
    (scrapeAllPages ⟨fun _ => true, fun _ => [⟨"A", "B", "C", "D", "E", 1, "d", "u"⟩],
        fun _ => true, fun _ => true⟩ 5).reason = .terminal ∧
    (∃ p, (scrapeAllPages ⟨fun _ => true, fun _ => [⟨"A", "B", "C", "D", "E", 1, "d", "u"⟩],
        fun _ => true, fun _ => true⟩ 5).visited.getLast? = some p ∧
      (fun (_ : Nat) => true) p = true ∧
      (fun (_ : Nat) => [(⟨"A", "B", "C", "D", "E", 1, "d", "u"⟩ : Record)]) p <:+
        (scrapeAllPages ⟨fun _ => true, fun _ => [⟨"A", "B", "C", "D", "E", 1, "d", "u"⟩],
          fun _ => true, fun _ => true⟩ 5).records) :=
  ⟨by simp [scrapeAllPages, scrapeLoop],
   (extraction_before_terminal ⟨fun _ => true, fun _ => [⟨"A", "B", "C", "D", "E", 1, "d", "u"⟩],
      fun _ => true, fun _ => true⟩ 5).2 (by simp [scrapeAllPages, scrapeLoop])⟩

/-- C6: a rendered page whose body contains the marker `"last page"` after
lowercasing makes `_check_if_last_page` return true; in the orchestrator,
if such a page is visited it is the last visited page, the run ends with
reason `terminal`, and the Pagination Controller is never invoked on it —
regardless of the state of any "next" control (`env.nextOk` is
unconstrained). -/
theorem last_page_text_ends_run (tpg : Nat → TermPage) (env : ScrapeEnv)
    (N p : Nat) (henv : ∀ q, env.isLast q = checkIfLastPage (tpg q))
    (htext : strContains (pyLower (tpg p).pageSource) "last page" = true) :
    checkIfLastPage (tpg p) = true ∧
    (p ∈ (scrapeAllPages env N).visited →
      (scrapeAllPages env N).visited.getLast? = some p ∧
      (scrapeAllPages env N).reason = .terminal) ∧
    p ∉ (scrapeAllPages env N).advancedFrom := by
  have hchk : checkIfLastPage (tpg p) = true := by
    unfold checkIfLastPage
    rw [Bool.or_eq_true]
    right
    rw [List.any_eq_true]
    exact ⟨"last page", by simp [lastPageIndicators], htext⟩
  have hlast : env.isLast p = true := (henv p).trans hchk
  obtain ⟨delta, dadv, h1, h2, h3, h4, h5, h6⟩ :=
    scrapeLoop_invariant env N (N + 1) 1 [] [] [] (by omega)
  unfold scrapeAllPages
  refine ⟨hchk, ?_, ?_⟩
  · intro hmem
    rw [h1] at hmem
    simp only [List.nil_append] at hmem
    obtain ⟨hr, δ, hδ⟩ := h6 p hmem hlast
    constructor
    · rw [h1, hδ]
      simp
    · exact hr
  · intro hmem
    rw [h2] at hmem
    simp only [List.nil_append] at hmem
    have := h4 p hmem
    rw [hlast] at this
    cases this

/-- C6 witness: a page whose body is `"...The Last Page..."` with no
disabled-next selector match ends a run at page 1 without any pagination
invocation, although `nextOk` reports a clickable control everywhere. -/
theorem last_page_text_ends_run_witness :
    strContains (pyLower "Reached The Last Page of the list") "last page" = true ∧
    ((scrapeAllPages ⟨fun _ => true, fun _ => [],
        fun _ => checkIfLastPage ⟨fun _ => 0, "Reached The Last Page of the list"⟩,
        fun _ => true⟩ 3).visited.getLast? = some 1 ∧
     (scrapeAllPages ⟨fun _ => true, fun _ => [],
        fun _ => checkIfLastPage ⟨fun _ => 0, "Reached The Last Page of the list"⟩,
        fun _ => true⟩ 3).reason = .terminal) ∧
    1 ∉ (scrapeAllPages ⟨fun _ => true, fun _ => [],
        fun _ => checkIfLastPage ⟨fun _ => 0, "Reached The Last Page of the list"⟩,
        fun _ => true⟩ 3).advancedFrom :=
  ⟨by decide,
   (last_page_text_ends_run (fun _ => ⟨fun _ => 0, "Reached The Last Page of the list"⟩)
      ⟨fun _ => true, fun _ => [],
       fun _ => checkIfLastPage ⟨fun _ => 0, "Reached The Last Page of the list"⟩,
       fun _ => true⟩ 3 1 (fun _ => rfl) (by decide)).2.1
     (by simp [scrapeAllPages, scrapeLoop, checkIfLastPage, disabledNextSelectors,
        lastPageIndicators, strContains, pyLower, charsContains, List.isPrefixOf]),
   (last_page_text_ends_run (fun _ => ⟨fun _ => 0, "Reached The Last Page of the list"⟩)
      ⟨fun _ => true, fun _ => [],
       fun _ => checkIfLastPage ⟨fun _ => 0, "Reached The Last Page of the list"⟩,
       fun _ => true⟩ 3 1 (fun _ => rfl) (by decide)).2.2⟩

/-- C7: if the structural table element never appears within the timeout,
`_wait_for_table_load` returns `false` (a value, not an exception), and a
run whose first `p - 1` pages were fully successful then stops at page `p`
with reason `waiterFail`, returning exactly the records accumulated on
pages `1..p-1` — partial results are kept, not discarded. -/
theorem waiter_timeout_keeps_partial (wpg : Nat → WaitPage) (env : ScrapeEnv)
    (N p : Nat) (henv : ∀ q, env.waitOk q = waitForTableLoad (wpg q))
    (hto : (wpg p).tableAppears = false)
    (hprev : ∀ q, 1 ≤ q → q < p →
      env.waitOk q = true ∧ env.isLast q = false ∧ env.nextOk q = true)
    (hp1 : 1 ≤ p) (hpN : p ≤ N) :
    waitForTableLoad (wpg p) = false ∧
    (scrapeAllPages env N).reason = .waiterFail ∧
    (scrapeAllPages env N).visited = List.range' 1 (p - 1) ∧
    (scrapeAllPages env N).records =
      ((List.range' 1 (p - 1)).map env.pageData).flatten := by
  have hwf : waitForTableLoad (wpg p) = false := by
    unfold waitForTableLoad
    rw [hto]
    simp
  have hwp : env.waitOk p = false := (henv p).trans hwf
  refine ⟨hwf, ?_⟩
  unfold scrapeAllPages
  rw [scrapeLoop_advance env N (p - 1) 1 [] [] [] (by omega)
    (fun q h1 h2 => hprev q h1 (by omega))]
  have h1p : 1 + (p - 1) = p := by omega
  rw [h1p]
  rw [scrapeLoop, if_pos hpN, if_neg (by simp [hwp])]
  exact ⟨rfl, by simp, by simp⟩

/-- C7 witness: the table never appears on page 1 — the run ends
immediately with `waiterFail` and an empty record list. -/
theorem waiter_timeout_keeps_partial_witness :
    waitForTableLoad ⟨false, 0, 0⟩ = false ∧
    (scrapeAllPages ⟨fun _ => waitForTableLoad ⟨false, 0, 0⟩, fun _ => [],
        fun _ => false, fun _ => true⟩ 2).reason = .waiterFail ∧
    (scrapeAllPages ⟨fun _ => waitForTableLoad ⟨false, 0, 0⟩, fun _ => [],
        fun _ => false, fun _ => true⟩ 2).visited = List.range' 1 (1 - 1) ∧
    (scrapeAllPages ⟨fun _ => waitForTableLoad ⟨false, 0, 0⟩, fun _ => [],
        fun _ => false, fun _ => true⟩ 2).records =
      ((List.range' 1 (1 - 1)).map (fun _ => ([] : List Record))).flatten :=
  waiter_timeout_keeps_partial (fun _ => ⟨false, 0, 0⟩)
    ⟨fun _ => waitForTableLoad ⟨false, 0, 0⟩, fun _ => [], fun _ => false, fun _ => true⟩
    2 1 (fun _ => rfl) rfl (fun q h1 h2 => absurd (Nat.lt_of_lt_of_le h2 h1) (by omega))
    (by decide) (by decide)

/-! ### Exception behaviour of `scrape_all_pages` (C10)

The whole method body sits in one `try`; the `except Exception` handler at
lines 483-485 returns `self.all_data` as accumulated so far.  Here every
collaborator call may throw (`Except.error`), and each error path returns
the current accumulator — the value the Python handler would return, since
`all_data` is extended in place page by page. -/

structure ScrapeEnvE where
  openPage : Except Unit Unit
  waitR : Nat → Except Unit Bool
  dataR : Nat → Except Unit (List Record)
  lastR : Nat → Except Unit Bool
  nextR : Nat → Except Unit Bool

/-- The traversal loop with throwing collaborators: any `Except.error`
escapes to the top-level handler, which returns the records accumulated up
to that point. -/
def scrapeLoopE (env : ScrapeEnvE) (maxPages currentPage : Nat)
    (acc : List Record) : List Record :=
  if currentPage ≤ maxPages then
    match env.waitR currentPage with
    | .error _ => acc
    | .ok false => acc
    | .ok true =>
      match env.dataR currentPage with
      | .error _ => acc
      | .ok pageData =>
        let acc' := if pageData.isEmpty then acc else acc ++ pageData
        match env.lastR currentPage with
        | .error _ => acc'
        | .ok true => acc'
        | .ok false =>
          if _h : currentPage < maxPages then
            match env.nextR currentPage with
            | .error _ => acc'
            | .ok true => scrapeLoopE env maxPages (currentPage + 1) acc'
            | .ok false => acc'
          else
            acc'
  else
    acc
termination_by maxPages + 1 - currentPage
decreasing_by omega

/-- `scrape_all_pages` under the exception model: a throw while opening the
start page returns the empty `all_data`; otherwise the loop runs from page
1. -/
def scrapeAllPagesE (env : ScrapeEnvE) (maxPages : Nat) : List Record :=
  match env.openPage with
  | .error _ => []
  | .ok _ => scrapeLoopE env maxPages 1 []

/-- The page data the loop would append for page `p`: the successful
extraction result, or nothing if the extraction call threw. -/
def okDataE (env : ScrapeEnvE) (p : Nat) : List Record :=
  match env.dataR p with
  | .ok d => d
  | .error _ => []

theorem scrapeLoopE_partial (env : ScrapeEnvE) (N : Nat) :
    ∀ (k cur : Nat) (acc : List Record), N + 1 - cur ≤ k →
      ∃ j, j ≤ N + 1 - cur ∧
        scrapeLoopE env N cur acc =
          acc ++ ((List.range' cur j).map (okDataE env)).flatten ∧
        ∀ p ∈ List.range' cur j, ∃ d, env.dataR p = Except.ok d := by
  intro k
  induction k with
  | zero =>
    intro cur acc hk
    rw [scrapeLoopE, if_neg (by omega : ¬cur ≤ N)]
    exact ⟨0, by omega, by simp [List.range'], by simp [List.range']⟩
  | succ k ih =>
    intro cur acc hk
    rw [scrapeLoopE]
    by_cases hle : cur ≤ N
    · rw [if_pos hle]
      cases hwait : env.waitR cur with
      | error e => exact ⟨0, by omega, by simp [List.range'], by simp [List.range']⟩
      | ok b =>
        cases b with
        | false => exact ⟨0, by omega, by simp [List.range'], by simp [List.range']⟩
        | true =>
          cases hdata : env.dataR cur with
          | error e => exact ⟨0, by omega, by simp [List.range'], by simp [List.range']⟩
          | ok pd =>
            dsimp only
            rw [extendIfNonempty]
            have hok : okDataE env cur = pd := by
              unfold okDataE
              rw [hdata]
            have hone : acc ++ pd =
                acc ++ ((List.range' cur 1).map (okDataE env)).flatten := by
              simp [hok]
            have honemem : ∀ p ∈ List.range' cur 1, ∃ d, env.dataR p = Except.ok d := by
              intro p hp
              simp only [List.range'_one, List.mem_singleton] at hp
              exact ⟨pd, hp ▸ hdata⟩
            cases hlast : env.lastR cur with
            | error e => exact ⟨1, by omega, hone, honemem⟩
            | ok bl =>
              cases bl with
              | true => exact ⟨1, by omega, hone, honemem⟩
              | false =>
                by_cases hcur : cur < N
                · rw [dif_pos hcur]
                  cases hnext : env.nextR cur with
                  | error e => exact ⟨1, by omega, hone, honemem⟩
                  | ok bn =>
                    cases bn with
                    | false => exact ⟨1, by omega, hone, honemem⟩
                    | true =>
                      obtain ⟨j, hj1, hj2, hj3⟩ := ih (cur + 1) (acc ++ pd) (by omega)
                      refine ⟨j + 1, by omega, ?_, ?_⟩
                      · rw [hj2]
                        rw [List.range'_succ cur j 1]
                        simp [hok, List.append_assoc]
                      · intro p hp
                        rw [List.range'_succ cur j 1] at hp
                        rcases List.mem_cons.mp hp with hp | hp
                        · exact ⟨pd, hp ▸ hdata⟩
                        · exact hj3 p hp
                · rw [dif_neg hcur]
                  exact ⟨1, by omega, hone, honemem⟩
    · rw [if_neg hle]
      exact ⟨0, by omega, by simp [List.range'], by simp [List.range']⟩

/-- C10: with a successfully constructed session, `scrape_all_pages` is a
total function even when any collaborator call throws: there is a `k ≤ N`
such that the returned value is exactly the records accumulated from the
successfully extracted pages `1..k` — a failed traversal returns the
records gathered up to the failure, through the same interface as a short
successful run. -/
theorem scrape_never_propagates (env : ScrapeEnvE) (N : Nat) :
    ∃ k, k ≤ N ∧
      (scrapeAllPagesE env N = [] ∨
        scrapeAllPagesE env N = ((List.range' 1 k).map (okDataE env)).flatten ∧
        ∀ p ∈ List.range' 1 k, ∃ d, env.dataR p = Except.ok d) := by
  unfold scrapeAllPagesE
  cases env.openPage with
  | error e => exact ⟨0, by omega, Or.inl rfl⟩
  | ok u =>
    obtain ⟨j, hj1, hj2, hj3⟩ := scrapeLoopE_partial env N (N + 1) 1 [] (by omega)
    exact ⟨j, by omega, Or.inr ⟨by rw [hj2]; simp, hj3⟩⟩

/-! ### Dataset materialization (`save_to_csv`, lines 487-528)

`df.sort_values(['pagina', 'codigo'])` is a stable sort by the
lexicographic key (page, code) — pandas uses a stable lexsort for
multi-column keys — modelled with `List.mergeSort`;
`df.drop_duplicates(subset=['codigo', 'pagina'], keep='first')` keeps the
first occurrence of each (code, page) key. -/

/-- The pandas sort key of line 513: ascending by `pagina`, then by
`codigo` (string comparison by code point). -/
def recordSortLe (a b : Record) : Bool :=
  decide (a.pagina < b.pagina) ||
    (decide (a.pagina = b.pagina) && strLexLe a.codigo b.codigo)

/-- The pandas dedup key of line 516: equality on `(codigo, pagina)`. -/
def sameKey (a b : Record) : Bool :=
  a.codigo == b.codigo && a.pagina == b.pagina

/-- `drop_duplicates(keep='first')`: keep each record whose `(codigo,
pagina)` key has not been seen yet. -/
def dropDuplicatesFirstAux (seen : List (String × Nat)) :
    List Record → List Record
  | [] => []
  | r :: rs =>
    if (r.codigo, r.pagina) ∈ seen then
      dropDuplicatesFirstAux seen rs
    else
      r :: dropDuplicatesFirstAux ((r.codigo, r.pagina) :: seen) rs

/-- `drop_duplicates(subset=['codigo', 'pagina'], keep='first')`. -/
def dropDuplicatesFirst (l : List Record) : List Record :=
  dropDuplicatesFirstAux [] l

/-- The dataframe `save_to_csv` materializes from `all_data` (lines
510-516): stable sort by `(pagina, codigo)`, then dedup keeping the first
occurrence of each `(codigo, pagina)` key. -/
def saveToCsv (allData : List Record) : List Record :=
  dropDuplicatesFirst (allData.mergeSort recordSortLe)

theorem strLexLe_refl (a : String) : strLexLe a a = true :=
  charsLexLe_refl a.data

theorem strLexLe_total (a b : String) :
    strLexLe a b = true ∨ strLexLe b a = true :=
  charsLexLe_total a.data b.data

theorem strLexLe_trans {a b c : String} (hab : strLexLe a b = true)
    (hbc : strLexLe b c = true) : strLexLe a c = true :=
  charsLexLe_trans a.data b.data c.data hab hbc

theorem recordSortLe_trans : ∀ (a b c : Record), recordSortLe a b = true →
    recordSortLe b c = true → recordSortLe a c = true := by
  intro a b c hab hbc
  unfold recordSortLe at hab hbc ⊢
  rw [Bool.or_eq_true] at hab hbc ⊢
  rcases hab with hab | hab
  · rcases hbc with hbc | hbc
    · exact Or.inl (decide_eq_true
        (Nat.lt_trans (of_decide_eq_true hab) (of_decide_eq_true hbc)))
    · rw [Bool.and_eq_true] at hbc
      exact Or.inl (decide_eq_true
        (lt_of_lt_of_eq (of_decide_eq_true hab) (of_decide_eq_true hbc.1)))
  · rw [Bool.and_eq_true] at hab
    rcases hbc with hbc | hbc
    · exact Or.inl (decide_eq_true
        (lt_of_eq_of_lt (of_decide_eq_true hab.1) (of_decide_eq_true hbc)))
    · rw [Bool.and_eq_true] at hbc
      refine Or.inr ?_
      rw [Bool.and_eq_true]
      exact ⟨decide_eq_true
          ((of_decide_eq_true hab.1).trans (of_decide_eq_true hbc.1)),
        strLexLe_trans hab.2 hbc.2⟩

theorem recordSortLe_total : ∀ (a b : Record),
    (recordSortLe a b || recordSortLe b a) = true := by
  intro a b
  unfold recordSortLe
  rw [Bool.or_eq_true, Bool.or_eq_true, Bool.or_eq_true]
  rcases Nat.lt_trichotomy a.pagina b.pagina with h | h | h
  · exact Or.inl (Or.inl (decide_eq_true h))
  · rcases strLexLe_total a.codigo b.codigo with hs | hs
    · refine Or.inl (Or.inr ?_)
      rw [Bool.and_eq_true]
      exact ⟨decide_eq_true h, hs⟩
    · refine Or.inr (Or.inr ?_)
      rw [Bool.and_eq_true]
      exact ⟨decide_eq_true h.symm, hs⟩
  · exact Or.inr (Or.inl (decide_eq_true h))

theorem sameKey_true_iff (a b : Record) :
    sameKey a b = true ↔ (a.codigo = b.codigo ∧ a.pagina = b.pagina) := by
  simp [sameKey]

theorem sameKey_self (a : Record) : sameKey a a = true := by
  simp [sameKey]

/-- Records with the key of a common record compare `≤` in both orders
under the sort key — equal keys are ties of the stable sort. -/
theorem recordSortLe_of_sameKey {a b r : Record} (ha : sameKey r a = true)
    (hb : sameKey r b = true) : recordSortLe a b = true := by
  obtain ⟨hac, hap⟩ := (sameKey_true_iff r a).mp ha
  obtain ⟨hbc, hbp⟩ := (sameKey_true_iff r b).mp hb
  unfold recordSortLe
  rw [Bool.or_eq_true]
  refine Or.inr ?_
  rw [Bool.and_eq_true]
  refine ⟨decide_eq_true (hap.symm.trans hbp), ?_⟩
  rw [← hac, ← hbc]
  exact strLexLe_refl r.codigo

theorem dropDuplicatesFirstAux_sublist :
    ∀ (l : List Record) (seen : List (String × Nat)),
      (dropDuplicatesFirstAux seen l).Sublist l := by
  intro l
  induction l with
  | nil => intro seen; exact List.Sublist.refl []
  | cons r rs ih =>
    intro seen
    rw [dropDuplicatesFirstAux]
    split
    · exact (ih seen).cons r
    · exact (ih _).cons₂ r

/-- Every record surviving the dedup has a key not previously seen, and is
the first record with its key in the dedup's input. -/
theorem dropDuplicatesFirstAux_mem :
    ∀ (l : List Record) (seen : List (String × Nat)) (r : Record),
      r ∈ dropDuplicatesFirstAux seen l →
      (r.codigo, r.pagina) ∉ seen ∧ l.find? (sameKey r) = some r := by
  intro l
  induction l with
  | nil =>
    intro seen r h
    simp [dropDuplicatesFirstAux] at h
  | cons x xs ih =>
    intro seen r h
    rw [dropDuplicatesFirstAux] at h
    split at h
    · rename_i hxseen
      obtain ⟨hnot, hfind⟩ := ih seen r h
      have hkeyn : ¬sameKey r x = true := by
        intro hk
        obtain ⟨hc, hp⟩ := (sameKey_true_iff r x).mp hk
        exact hnot (by rw [hc, hp]; exact hxseen)
      refine ⟨hnot, ?_⟩
      rw [List.find?_cons_of_neg _ hkeyn, hfind]
    · rename_i hxseen
      rcases List.mem_cons.mp h with hr | hr
      · subst hr
        exact ⟨hxseen, by rw [List.find?_cons_of_pos _ (sameKey_self r)]⟩
      · obtain ⟨hnot, hfind⟩ := ih _ r hr
        have hne : (r.codigo, r.pagina) ≠ (x.codigo, x.pagina) := by
          intro hk
          exact hnot (by rw [hk]; exact List.mem_cons_self _ _)
        have hkeyn : ¬sameKey r x = true := by
          intro hk
          obtain ⟨hc, hp⟩ := (sameKey_true_iff r x).mp hk
          exact hne (by rw [hc, hp])
        refine ⟨fun hmem => hnot (List.mem_cons_of_mem _ hmem), ?_⟩
        rw [List.find?_cons_of_neg _ hkeyn, hfind]

/-- The dedup output has pairwise distinct `(codigo, pagina)` keys. -/
theorem dropDuplicatesFirstAux_pairwise :
    ∀ (l : List Record) (seen : List (String × Nat)),
      (dropDuplicatesFirstAux seen l).Pairwise
        (fun a b => ¬(a.codigo = b.codigo ∧ a.pagina = b.pagina)) := by
  intro l
  induction l with
  | nil => intro seen; exact List.Pairwise.nil
  | cons x xs ih =>
    intro seen
    rw [dropDuplicatesFirstAux]
    split
    · exact ih seen
    · refine List.Pairwise.cons ?_ (ih _)
      intro b hb hk
      obtain ⟨hnot, _⟩ := dropDuplicatesFirstAux_mem xs _ b hb
      exact hnot (by rw [← hk.1, ← hk.2]; exact List.mem_cons_self _ _)

theorem find?_eq_head_filter (p : Record → Bool) :
    ∀ (l : List Record), l.find? p = (l.filter p).head? := by
  intro l
  induction l with
  | nil => rfl
  | cons a t ih =>
    by_cases h : p a = true
    · rw [List.find?_cons_of_pos _ h, List.filter_cons_of_pos h, List.head?_cons]
    · rw [List.find?_cons_of_neg _ h, List.filter_cons_of_neg (by simpa using h), ih]

/-- Stability of the sort on equal keys: filtering the sorted list by a
fixed dedup key gives exactly the original list's records with that key,
in their original order. -/
theorem filter_mergeSort_sameKey (all : List Record) (r : Record) :
    (all.mergeSort recordSortLe).filter (sameKey r) =
      all.filter (sameKey r) := by
  have hperm : ((all.mergeSort recordSortLe).filter (sameKey r)).Perm
      (all.filter (sameKey r)) :=
    (List.mergeSort_perm all recordSortLe).filter _
  have hpair : (all.filter (sameKey r)).Pairwise
      (fun a b => recordSortLe a b = true) := by
    refine List.pairwise_of_forall_mem_list ?_
    intro a ha b hb
    exact recordSortLe_of_sameKey (List.of_mem_filter ha) (List.of_mem_filter hb)
  have hsub : (all.filter (sameKey r)).Sublist
      (all.mergeSort recordSortLe) :=
    List.sublist_mergeSort (fun a b c => recordSortLe_trans a b c)
      recordSortLe_total hpair (List.filter_sublist all)
  have hsub2 : (all.filter (sameKey r)).Sublist
      ((all.mergeSort recordSortLe).filter (sameKey r)) := by
    have h1 := hsub.filter (sameKey r)
    rwa [List.filter_eq_self.mpr (fun a ha => List.of_mem_filter ha)] at h1
  exact (hsub2.eq_of_length hperm.length_eq.symm).symm

/-- C3: the materialized Dataset contains at most one Record per
`(codigo, pagina)` pair, and each kept Record is the first record with its
key in traversal order — the first match of `find?` over the accumulated
list as it was built during traversal. -/
theorem dataset_dedup_keeps_first (all : List Record) :
    (saveToCsv all).Pairwise
      (fun a b => ¬(a.codigo = b.codigo ∧ a.pagina = b.pagina)) ∧
    ∀ r ∈ saveToCsv all, all.find? (sameKey r) = some r := by
  constructor
  · exact dropDuplicatesFirstAux_pairwise _ _
  · intro r hr
    obtain ⟨-, hfind⟩ := dropDuplicatesFirstAux_mem _ _ r hr
    rw [find?_eq_head_filter] at hfind
    rw [filter_mergeSort_sameKey] at hfind
    rw [find?_eq_head_filter]
    exact hfind

/-- C9: in the materialized Dataset, whenever record A precedes record B,
`(A.pagina, A.codigo) ≤ (B.pagina, B.codigo)` lexicographically. -/
theorem dataset_sorted (all : List Record) :
    (saveToCsv all).Pairwise (fun a b =>
      a.pagina < b.pagina ∨
        (a.pagina = b.pagina ∧ strLexLe a.codigo b.codigo = true)) := by
  have hsorted : (all.mergeSort recordSortLe).Pairwise
      (fun a b => recordSortLe a b = true) :=
    List.sorted_mergeSort (fun a b c => recordSortLe_trans a b c)
      recordSortLe_total all
  have hsub : (saveToCsv all).Sublist (all.mergeSort recordSortLe) :=
    dropDuplicatesFirstAux_sublist _ _
  refine (List.Pairwise.sublist hsub hsorted).imp ?_
  intro a b h
  unfold recordSortLe at h
  rw [Bool.or_eq_true] at h
  rcases h with h | h
  · exact Or.inl (of_decide_eq_true h)
  · rw [Bool.and_eq_true] at h
    exact Or.inr ⟨of_decide_eq_true h.1, h.2⟩

/-- C3 witness: two records share the key `("A", 1)`; the Dataset keeps the
first of them in traversal order, and the kept record is the first match of
its key in the accumulated list. -/
theorem dataset_dedup_keeps_first_witness :
    (⟨"A", "first", "", "", "", 1, "", ""⟩ : Record) ∈
      saveToCsv [⟨"B", "w", "", "", "", 1, "", ""⟩,
        ⟨"A", "first", "", "", "", 1, "", ""⟩,
        ⟨"A", "second", "", "", "", 1, "", ""⟩] ∧
    [(⟨"B", "w", "", "", "", 1, "", ""⟩ : Record),
        ⟨"A", "first", "", "", "", 1, "", ""⟩,
        ⟨"A", "second", "", "", "", 1, "", ""⟩].find?
      (sameKey ⟨"A", "first", "", "", "", 1, "", ""⟩) =
      some ⟨"A", "first", "", "", "", 1, "", ""⟩ :=
  ⟨by simp [saveToCsv, List.mergeSort, dropDuplicatesFirst, dropDuplicatesFirstAux,
      recordSortLe, strLexLe, charsLexLe, sameKey],
   (dataset_dedup_keeps_first [⟨"B", "w", "", "", "", 1, "", ""⟩,
      ⟨"A", "first", "", "", "", 1, "", ""⟩,
      ⟨"A", "second", "", "", "", 1, "", ""⟩]).2
     ⟨"A", "first", "", "", "", 1, "", ""⟩
     (by simp [saveToCsv, List.mergeSort, dropDuplicatesFirst, dropDuplicatesFirstAux,
        recordSortLe, strLexLe, charsLexLe, sameKey])⟩

/-! ### Pagination Controller (`_find_next_page_button`, lines 190-294)

The driver is abstracted as selector oracles.  An element carries the
introspection results the method reads and whether each of its effectful
operations (scroll script, direct click, script click) succeeds — a raised
exception performs no advance action. `find_element` returning `none`
models the `NoSuchElementException` path.  The method's return value is
paired with the number of click actions actually performed, so that
"returns true iff an advance action was performed" is a statement about
the model rather than a definition. -/

structure Elem where
  displayed : Bool
  enabled : Bool
  attrDisabled : Option String
  attrAriaDisabled : Option String
  attrClass : Option String
  textContent : Option String
  scrollOk : Bool
  clickOk : Bool
  scriptClickOk : Bool
deriving Repr, DecidableEq

structure PagDriver where
  cssElems : String → List Elem
  xpathElems : String → List Elem
  xpathFirst : String → Option Elem

/-- Python truthiness of a `get_attribute` result (`None` and `""` are
falsy). -/
def optTruthy : Option String → Bool
  | none => false
  | some s => s != ""

/-- The "next" selector heuristics of lines 199-217, in priority order. -/
def nextSelectors : List String :=
  ["a[aria-label='Next']",
   "a[title='Next']",
   "a[title='Próxima']",
   "button[aria-label='Next']",
   "button[title='Next']",
   "button[title='Próxima']",
   "a:contains('Next')",
   "a:contains('Próxima')",
   "a:contains('>')",
   ".pagination a[aria-label='Next']",
   ".pagination button[aria-label='Next']",
   ".pagination a:last-child",
   "a.page-link[aria-label='Next']",
   "li.page-item:last-child a",
   "a[data-dt-idx]",
   "button.paginate_button.next",
   ".dataTables_paginate .next"]

/-- Everything after the first occurrence of `needle` — the Python
`split(needle)[1]` when `needle` occurs (which the caller guarantees). -/
def dropAfterSub (needle : List Char) : List Char → List Char
  | [] => []
  | c :: t =>
    if needle.isPrefixOf (c :: t) then (c :: t).drop needle.length
    else dropAfterSub needle t

/-- Characters before the first `stop` — the Python `split(stop)[0]`. -/
def takeUntil (stop : Char) : List Char → List Char
  | [] => []
  | c :: t => if c = stop then [] else c :: takeUntil stop t

/-- Line 224: `f"//a[contains(text(), '{selector.split(':contains(')[1].split(')')[0]}')]"`. -/
def containsTextXPath (selector : String) : String :=
  "//a[contains(text(), '" ++
    String.mk (takeUntil (Char.ofNat 41)
      (dropAfterSub ":contains(".data selector.data)) ++ "')]"

/-- Lines 222-227: a `:contains` selector is rewritten to an XPath text
query; any other selector is used as CSS. -/
def elementsFor (d : PagDriver) (selector : String) : List Elem :=
  if strContains selector ":contains(" then
    d.xpathElems (containsTextXPath selector)
  else
    d.cssElems selector

/-- The usability test of lines 230-236: displayed, enabled, no truthy
`disabled` attribute, `aria-disabled` not `'true'`, and no `disabled`
token in the lowercased class attribute. -/
def elemUsable (e : Elem) : Bool :=
  e.displayed && e.enabled &&
    (!optTruthy e.attrDisabled &&
      !(e.attrAriaDisabled == some "true") &&
      !(strContains (pyLower ((e.attrClass).getD "")) "disabled"))

/-- The inner element loop of lines 229-251 for one selector: the first
usable element is scrolled to and clicked (direct click, script click as a
fallback).  A throwing scroll or a doubly-throwing click aborts the whole
selector (`except`/`continue` skips its remaining elements).  Returns
(returned-true, clicks performed). -/
def tryClickElems : List Elem → Bool × Nat
  | [] => (false, 0)
  | e :: rest =>
    if elemUsable e then
      if e.scrollOk then
        if e.clickOk then (true, 1)
        else if e.scriptClickOk then (true, 1)
        else (false, 0)
      else (false, 0)
    else tryClickElems rest

/-- The selector loop of lines 219-255: first selector whose element scan
clicks wins; a selector that fails is abandoned for the next one. -/
def tryNextSelectors (d : PagDriver) : List String → Bool × Nat
  | [] => (false, 0)
  | sel :: rest =>
    let r := tryClickElems (elementsFor d sel)
    if r.1 then r
    else (tryNextSelectors d rest).map (fun b => b) (fun n => r.2 + n)

/-- Line 260: the numbered-page links XPath. -/
def numericLinksXPath : String :=
  "//a[matches(text(), '^[0-9]+$')]"

/-- Line 266: the active/current page indicator selector. -/
def currentIndicatorsSelector : String :=
  ".active, .current, [aria-current='page']"

/-- Python `int()` on a decimal digit string; `none` models the
`ValueError` path for anything else. -/
def pyParseNat (s : String) : Option Nat :=
  if s ≠ "" ∧ s.data.all Char.isDigit then
    some (s.data.foldl (fun n c => n * 10 + (c.toNat - 48)) 0)
  else
    none

/-- Lines 264-270: the current page text defaults to `"1"`, replaced by the
stripped `textContent` of the first indicator element when that read
succeeds (a missing element or a `None` `textContent` keeps the default via
the bare `except`). -/
def readCurrentPageText (d : PagDriver) : String :=
  match (d.cssElems currentIndicatorsSelector).head? with
  | none => "1"
  | some e =>
    match e.textContent with
    | none => "1"
    | some t => pyStrip t

/-- Line 277: `f"//a[text()='{next_page_num}']"`. -/
def nextPageLinkXPath (n : Nat) : String :=
  "//a[text()='" ++ toString n ++ "']"

/-- The numbered-page fallback of lines 257-287: only runs when numeric
links exist; parse failure (`ValueError`), a missing next-page link
(`NoSuchElementException`), an invisible or Disabled link, or a throwing
click all fall through to `return False`. -/
def tryNumericFallback (d : PagDriver) : Bool × Nat :=
  if (d.xpathElems numericLinksXPath).isEmpty then (false, 0)
  else
    match pyParseNat (readCurrentPageText d) with
    | none => (false, 0)
    | some n =>
      match d.xpathFirst (nextPageLinkXPath (n + 1)) with
      | none => (false, 0)
      | some link =>
        if link.displayed && link.enabled then
          if link.clickOk then (true, 1) else (false, 0)
        else (false, 0)

/-- `_find_next_page_button`: the prioritized "next"-control strategies,
then the numbered-page fallback, then `return False`. -/
def findNextPageButton (d : PagDriver) : Bool × Nat :=
  let s := tryNextSelectors d nextSelectors
  if s.1 then s
  else (tryNumericFallback d).map (fun b => b) (fun n => s.2 + n)

theorem tryClickElems_clicks (es : List Elem) :
    (tryClickElems es).1 = true ↔ (tryClickElems es).2 ≠ 0 := by
  induction es with
  | nil => simp [tryClickElems]
  | cons e rest ih =>
    rw [tryClickElems]
    split
    · split
      · split
        · simp
        · split
          · simp
          · simp
      · simp
    · exact ih

theorem tryNextSelectors_clicks (d : PagDriver) (sels : List String) :
    (tryNextSelectors d sels).1 = true ↔ (tryNextSelectors d sels).2 ≠ 0 := by
  induction sels with
  | nil => simp [tryNextSelectors]
  | cons sel rest ih =>
    rw [tryNextSelectors]
    split
    · rename_i hr
      rw [hr]
      simpa using (tryClickElems_clicks (elementsFor d sel)).mp hr
    · rename_i hr
      have hz : (tryClickElems (elementsFor d sel)).2 = 0 := by
        by_contra hnz
        exact hr ((tryClickElems_clicks (elementsFor d sel)).mpr hnz)
      simp [Prod.map, hz, ih]

theorem tryNumericFallback_clicks (d : PagDriver) :
    (tryNumericFallback d).1 = true ↔ (tryNumericFallback d).2 ≠ 0 := by
  unfold tryNumericFallback
  split
  · simp
  · split
    · simp
    · split
      · simp
      · split
        · split <;> simp
        · simp

/-- C8: in `_find_next_page_button`, (i) the returned boolean is true
exactly when a click action was performed; (ii) when no selector strategy
finds a usable "next" control, the result is that of the numbered-page
fallback; (iii) the fallback reads the current page from the active/current
indicator, defaulting to page 1 when no indicator element exists; and (iv)
the fallback reports an advance exactly when numbered links exist, the
current page text parses, the link numbered `current + 1` is found, and it
is visible, enabled and its click succeeds. -/
theorem find_next_page_button_spec (d : PagDriver)
    (hsel : ∀ sel ∈ nextSelectors, (tryClickElems (elementsFor d sel)).1 = false) :
    ((findNextPageButton d).1 = true ↔ (findNextPageButton d).2 ≠ 0) ∧
    findNextPageButton d = tryNumericFallback d ∧
    (d.cssElems currentIndicatorsSelector = [] → readCurrentPageText d = "1") ∧
    ((tryNumericFallback d).1 = true ↔
      ¬(d.xpathElems numericLinksXPath).isEmpty = true ∧
      ∃ n link, pyParseNat (readCurrentPageText d) = some n ∧
        d.xpathFirst (nextPageLinkXPath (n + 1)) = some link ∧
        link.displayed = true ∧ link.enabled = true ∧ link.clickOk = true) := by
  have hsels : ∀ sels, (∀ sel ∈ sels, (tryClickElems (elementsFor d sel)).1 = false) →
      tryNextSelectors d sels = (false, 0) := by
    intro sels
    induction sels with
    | nil => intro _; rfl
    | cons sel rest ih =>
      intro h
      rw [tryNextSelectors]
      rw [if_neg (by rw [h sel (List.mem_cons_self _ _)]; exact Bool.false_ne_true)]
      have hz : (tryClickElems (elementsFor d sel)).2 = 0 := by
        by_contra hnz
        have htrue := (tryClickElems_clicks (elementsFor d sel)).mpr hnz
        rw [h sel (List.mem_cons_self _ _)] at htrue
        cases htrue
      rw [ih (fun s hs => h s (List.mem_cons_of_mem _ hs))]
      simp [Prod.map, hz]
  have hmain : findNextPageButton d = tryNumericFallback d := by
    unfold findNextPageButton
    rw [hsels nextSelectors hsel]
    simp [Prod.map]
  refine ⟨?_, hmain, ?_, ?_⟩
  · rw [hmain]
    exact tryNumericFallback_clicks d
  · intro hempty
    unfold readCurrentPageText
    rw [hempty]
    rfl
  · unfold tryNumericFallback
    split
    · rename_i hne
      simp [hne]
    · rename_i hne
      cases hparse : pyParseNat (readCurrentPageText d) with
      | none =>
        simp only [hparse]
        constructor
        · intro h; cases h
        · rintro ⟨-, n, link, hn, -⟩
          cases hn
      | some n =>
        simp only [hparse]
        cases hfirst : d.xpathFirst (nextPageLinkXPath (n + 1)) with
        | none =>
          simp only [hfirst]
          constructor
          · intro h; cases h
          · rintro ⟨-, n', link, hn', hl', -⟩
            obtain rfl : n = n' := by injection hn'
            rw [hfirst] at hl'
            cases hl'
        | some link =>
          simp only [hfirst]
          constructor
          · intro h
            split at h
            · rename_i hde
              split at h
              · rename_i hck
                rw [Bool.and_eq_true] at hde
                exact ⟨hne, n, link, rfl, hfirst, hde.1, hde.2, hck⟩
              · cases h
            · cases h
          · rintro ⟨-, n', link', hn', hl', hd, he, hc⟩
            obtain rfl : n = n' := by injection hn'
            rw [hfirst] at hl'
            obtain rfl : link = link' := by injection hl'
            rw [if_pos (by rw [hd, he]; rfl), if_pos hc]

/-- C8 witness: a driver with no usable "next" control, one numbered link,
no current-page indicator (so the current page defaults to 1), and a
visible, enabled link labelled `2`: the controller falls back to the
numbered-page strategy, clicks, and returns true having performed exactly
one click. -/
theorem find_next_page_button_spec_witness :
    (∀ sel ∈ nextSelectors,
      (tryClickElems (elementsFor
        ⟨fun _ => [],
         fun s => if s == numericLinksXPath
           then [⟨true, true, none, none, none, some "1", true, true, true⟩] else [],
         fun s => if s == nextPageLinkXPath 2
           then some ⟨true, true, none, none, none, some "2", true, true, true⟩
           else none⟩ sel)).1 = false) ∧
    findNextPageButton
        ⟨fun _ => [],
         fun s => if s == numericLinksXPath
           then [⟨true, true, none, none, none, some "1", true, true, true⟩] else [],
         fun s => if s == nextPageLinkXPath 2
           then some ⟨true, true, none, none, none, some "2", true, true, true⟩
           else none⟩ =
      tryNumericFallback
        ⟨fun _ => [],
         fun s => if s == numericLinksXPath
           then [⟨true, true, none, none, none, some "1", true, true, true⟩] else [],
         fun s => if s == nextPageLinkXPath 2
           then some ⟨true, true, none, none, none, some "2", true, true, true⟩
           else none⟩ ∧
    (findNextPageButton
        ⟨fun _ => [],
         fun s => if s == numericLinksXPath
           then [⟨true, true, none, none, none, some "1", true, true, true⟩] else [],
         fun s => if s == nextPageLinkXPath 2
           then some ⟨true, true, none, none, none, some "2", true, true, true⟩
           else none⟩).1 = true :=
  ⟨by decide, (find_next_page_button_spec _ (by decide)).2.1, by decide⟩

end Ibov
